import Mathlib

/-!
# curve: reader/writer lock wrappers and the unstable-chunkserver integration test

A shallow embedding of

* `src/common/concurrent/rw_lock.h`: `RWLockBase`, `RWLock`, `WritePreferedRWLock`,
  `ReadLockGuard`, `WriteLockGuard`;
* `test/integration/client/unstable_chunkserver_exception_test.cpp`:
  `GenChunkserverConf`, `RandomWriteOffset`, `RandomWriteLength`, `AioWriteFunc`
  and the measuring loops of `HangOneZone`.

The POSIX primitives the wrappers call (`pthread_rwlock_*`) are library code; they are
modelled at the level of the POSIX contract: the lock is the collection of holds that
are currently granted, a request is granted when it is compatible with them, and the
library may report an error number or keep a caller waiting.
-/

namespace curve
namespace common

/-! ## The POSIX read-write lock -/

/-- Identity of a calling thread. -/
abbrev Tid := Nat

/-- Mode in which a thread holds the lock. -/
inductive Mode where
  | read
  | write
  deriving DecidableEq, Repr

/-- One granted acquisition: which thread holds the lock, and how. -/
structure Hold where
  tid : Tid
  mode : Mode
  deriving DecidableEq, Repr

/-- Contents of a `pthread_rwlock_t`: the acquisitions currently granted and not yet
released, most recent first. -/
abbrev pthread_rwlock_t := List Hold

/-- The kind stored in a `pthread_rwlockattr_t`. -/
inductive RWLockKind where
  | PTHREAD_RWLOCK_PREFER_READER_NP
  | PTHREAD_RWLOCK_PREFER_WRITER_NP
  | PTHREAD_RWLOCK_PREFER_WRITER_NONRECURSIVE_NP
  deriving DecidableEq, Repr

/-- A `pthread_rwlockattr_t`; `pthread_rwlockattr_init` gives the default kind. -/
structure pthread_rwlockattr_t where
  kind : RWLockKind
  deriving DecidableEq, Repr

/-- What the C library decides for one call besides looking at the granted holds:
`err` is an error number it reports (`0` for none: `EINVAL`, `EDEADLK`, `EAGAIN`, ...),
`wait` says that its queueing policy keeps a compatible request waiting (a reader behind
a queued writer under writer preference). -/
structure Sys where
  err : Nat
  wait : Bool
  deriving DecidableEq, Repr

/-- Error number of a `try` call on a lock that cannot be granted at once. -/
def EBUSY : Nat := 16

/-- Error number reported for an unlock by a thread that holds nothing. -/
def EPERM : Nat := 1

/-- Result of a primitive: it returned `code` and left the lock as `lock`, or it has
not returned because the caller is kept waiting. -/
inductive PthreadResult where
  | ret (code : Nat) (lock : pthread_rwlock_t)
  | blocked
  deriving DecidableEq, Repr

/-- A write request is compatible with the granted holds when there are none. -/
def writeCompatible (l : pthread_rwlock_t) : Bool :=
  l.isEmpty

/-- A read request is compatible with the granted holds when none of them is a write. -/
def readCompatible (l : pthread_rwlock_t) : Bool :=
  l.all fun h => decide (h.mode ≠ Mode.write)

/-- Thread `t` holds the lock (in either mode). -/
def holds (l : pthread_rwlock_t) (t : Tid) : Bool :=
  l.any fun h => decide (h.tid = t)

/-- Blocking write request: granted on a lock with no holds, else the caller waits. -/
def pthread_rwlock_wrlock (sys : Sys) (t : Tid) (l : pthread_rwlock_t) : PthreadResult :=
  if sys.err ≠ 0 then PthreadResult.ret sys.err l
  else if writeCompatible l && !sys.wait then PthreadResult.ret 0 (⟨t, Mode.write⟩ :: l)
  else PthreadResult.blocked

/-- Write request that never waits: `EBUSY` where the blocking call would wait. -/
def pthread_rwlock_trywrlock (sys : Sys) (t : Tid) (l : pthread_rwlock_t) : PthreadResult :=
  if sys.err ≠ 0 then PthreadResult.ret sys.err l
  else if writeCompatible l && !sys.wait then PthreadResult.ret 0 (⟨t, Mode.write⟩ :: l)
  else PthreadResult.ret EBUSY l

/-- Blocking read request: granted beside other readers, else the caller waits. -/
def pthread_rwlock_rdlock (sys : Sys) (t : Tid) (l : pthread_rwlock_t) : PthreadResult :=
  if sys.err ≠ 0 then PthreadResult.ret sys.err l
  else if readCompatible l && !sys.wait then PthreadResult.ret 0 (⟨t, Mode.read⟩ :: l)
  else PthreadResult.blocked

/-- Read request that never waits: `EBUSY` where the blocking call would wait. -/
def pthread_rwlock_tryrdlock (sys : Sys) (t : Tid) (l : pthread_rwlock_t) : PthreadResult :=
  if sys.err ≠ 0 then PthreadResult.ret sys.err l
  else if readCompatible l && !sys.wait then PthreadResult.ret 0 (⟨t, Mode.read⟩ :: l)
  else PthreadResult.ret EBUSY l

/-- Releases one hold of the calling thread. POSIX leaves the call undefined when the
caller holds nothing; here it then reports `EPERM` and leaves the lock alone, and the
theorems on release assume a holder. -/
def pthread_rwlock_unlock (t : Tid) (l : pthread_rwlock_t) : Nat × pthread_rwlock_t :=
  if holds l t then (0, l.eraseP fun h => decide (h.tid = t)) else (EPERM, l)

/-! ## `RWLockBase` and its two concrete classes -/

/-- How a call of a wrapper ends: it returns, the process is aborted by a failed
`CHECK`, or the caller is still waiting inside the primitive. -/
inductive Outcome (α : Type) where
  | returned (a : α)
  | aborted
  | blocked
  deriving DecidableEq, Repr

/-- Data members of `RWLockBase`; `rwlockAttr_` is `none` while it is uninitialised. -/
structure RWLockBase where
  rwlock_ : pthread_rwlock_t
  rwlockAttr_ : Option pthread_rwlockattr_t
  deriving DecidableEq, Repr

namespace RWLockBase

/-- Method `WRLock()`: `pthread_rwlock_wrlock`, then `CHECK(0 == ret)`. -/
def WRLock (sys : Sys) (t : Tid) (self : RWLockBase) : Outcome RWLockBase :=
  match pthread_rwlock_wrlock sys t self.rwlock_ with
  | PthreadResult.ret ret l => if 0 = ret then Outcome.returned { self with rwlock_ := l }
                               else Outcome.aborted
  | PthreadResult.blocked => Outcome.blocked

/-- Method `TryWRLock()`: hands back what `pthread_rwlock_trywrlock` returned. -/
def TryWRLock (sys : Sys) (t : Tid) (self : RWLockBase) : Outcome (Nat × RWLockBase) :=
  match pthread_rwlock_trywrlock sys t self.rwlock_ with
  | PthreadResult.ret ret l => Outcome.returned (ret, { self with rwlock_ := l })
  | PthreadResult.blocked => Outcome.blocked

/-- Method `RDLock()`: `pthread_rwlock_rdlock`, then `CHECK(0 == ret)`. -/
def RDLock (sys : Sys) (t : Tid) (self : RWLockBase) : Outcome RWLockBase :=
  match pthread_rwlock_rdlock sys t self.rwlock_ with
  | PthreadResult.ret ret l => if 0 = ret then Outcome.returned { self with rwlock_ := l }
                               else Outcome.aborted
  | PthreadResult.blocked => Outcome.blocked

/-- Method `TryRDLock()`: hands back what `pthread_rwlock_tryrdlock` returned. -/
def TryRDLock (sys : Sys) (t : Tid) (self : RWLockBase) : Outcome (Nat × RWLockBase) :=
  match pthread_rwlock_tryrdlock sys t self.rwlock_ with
  | PthreadResult.ret ret l => Outcome.returned (ret, { self with rwlock_ := l })
  | PthreadResult.blocked => Outcome.blocked

/-- Method `Unlock()`: `pthread_rwlock_unlock`, the return value is dropped. -/
def Unlock (t : Tid) (self : RWLockBase) : RWLockBase :=
  { self with rwlock_ := (pthread_rwlock_unlock t self.rwlock_).2 }

end RWLockBase

/-- Constructor `RWLock()`: `pthread_rwlock_init(&rwlock_, nullptr)`; the attribute member is not
touched. -/
def RWLock : RWLockBase :=
  { rwlock_ := [], rwlockAttr_ := none }

/-- Constructor `WritePreferedRWLock()`: the attribute is initialised, its kind set to
`PTHREAD_RWLOCK_PREFER_WRITER_NONRECURSIVE_NP`, and the lock initialised with it. -/
def WritePreferedRWLock : RWLockBase :=
  { rwlock_ := [],
    rwlockAttr_ := some { kind := RWLockKind.PTHREAD_RWLOCK_PREFER_WRITER_NONRECURSIVE_NP } }

/-! ## Scope guards -/

/-- A call made on the lock, as recorded in the history of a run. -/
inductive Call where
  | RDLock (t : Tid)
  | WRLock (t : Tid)
  | Unlock (t : Tid)
  deriving DecidableEq, Repr

/-- What a guard acts on: the lock it refers to (`rwlock_` of the guard is a reference),
together with the history of calls made on that lock so far. -/
structure Proc where
  lock : RWLockBase
  calls : List Call
  deriving DecidableEq, Repr

/-- How control leaves the block that owns a guard. -/
inductive Exit (α : Type) where
  | normal (a : α)
  | earlyReturn (a : α)
  | thrown (what : String)
  deriving DecidableEq, Repr

namespace ReadLockGuard

/-- Constructor of `ReadLockGuard`: `rwlock_.RDLock()`. -/
def ctor (sys : Sys) (t : Tid) (p : Proc) : Outcome Proc :=
  match p.lock.RDLock sys t with
  | Outcome.returned l => Outcome.returned { lock := l, calls := p.calls ++ [Call.RDLock t] }
  | Outcome.aborted => Outcome.aborted
  | Outcome.blocked => Outcome.blocked

/-- Destructor of `ReadLockGuard`: `rwlock_.Unlock()`. -/
def dtor (t : Tid) (p : Proc) : Proc :=
  { lock := p.lock.Unlock t, calls := p.calls ++ [Call.Unlock t] }

/-- A block `{ ReadLockGuard g(lock); body }`: the guard is constructed, the body runs,
and the destructor runs however the body leaves the block. A body that aborts the
process or never finishes has no destructor run after it. -/
def scope {α : Type} (sys : Sys) (t : Tid) (body : Proc → Outcome (Exit α × Proc))
    (p : Proc) : Outcome (Exit α × Proc) :=
  match ctor sys t p with
  | Outcome.returned p1 =>
    match body p1 with
    | Outcome.returned (e, p2) => Outcome.returned (e, dtor t p2)
    | Outcome.aborted => Outcome.aborted
    | Outcome.blocked => Outcome.blocked
  | Outcome.aborted => Outcome.aborted
  | Outcome.blocked => Outcome.blocked

end ReadLockGuard

namespace WriteLockGuard

/-- Constructor of `WriteLockGuard`: `rwlock_.WRLock()`. -/
def ctor (sys : Sys) (t : Tid) (p : Proc) : Outcome Proc :=
  match p.lock.WRLock sys t with
  | Outcome.returned l => Outcome.returned { lock := l, calls := p.calls ++ [Call.WRLock t] }
  | Outcome.aborted => Outcome.aborted
  | Outcome.blocked => Outcome.blocked

/-- Destructor of `WriteLockGuard`: `rwlock_.Unlock()`. -/
def dtor (t : Tid) (p : Proc) : Proc :=
  { lock := p.lock.Unlock t, calls := p.calls ++ [Call.Unlock t] }

/-- A block `{ WriteLockGuard g(lock); body }`, as for `ReadLockGuard.scope`. -/
def scope {α : Type} (sys : Sys) (t : Tid) (body : Proc → Outcome (Exit α × Proc))
    (p : Proc) : Outcome (Exit α × Proc) :=
  match ctor sys t p with
  | Outcome.returned p1 =>
    match body p1 with
    | Outcome.returned (e, p2) => Outcome.returned (e, dtor t p2)
    | Outcome.aborted => Outcome.aborted
    | Outcome.blocked => Outcome.blocked
  | Outcome.aborted => Outcome.aborted
  | Outcome.blocked => Outcome.blocked

end WriteLockGuard

/-! ## Runs of lock operations -/

/-- One call of a public member of `RWLockBase` by a thread. -/
inductive Op where
  | RDLock (sys : Sys) (t : Tid)
  | WRLock (sys : Sys) (t : Tid)
  | TryRDLock (sys : Sys) (t : Tid)
  | TryWRLock (sys : Sys) (t : Tid)
  | Unlock (t : Tid)
  deriving DecidableEq, Repr

/-- Effect of one operation on the lock. -/
def RWLockBase.apply (self : RWLockBase) : Op → Outcome RWLockBase
  | Op.RDLock sys t => self.RDLock sys t
  | Op.WRLock sys t => self.WRLock sys t
  | Op.TryRDLock sys t =>
    match self.TryRDLock sys t with
    | Outcome.returned r => Outcome.returned r.2
    | Outcome.aborted => Outcome.aborted
    | Outcome.blocked => Outcome.blocked
  | Op.TryWRLock sys t =>
    match self.TryWRLock sys t with
    | Outcome.returned r => Outcome.returned r.2
    | Outcome.aborted => Outcome.aborted
    | Outcome.blocked => Outcome.blocked
  | Op.Unlock t => Outcome.returned (self.Unlock t)

/-- The lock states visited while the operations are issued one after the other. A
caller that is kept waiting leaves the lock as it is; after an abort there is no process
and no further state. -/
def RWLockBase.run (self : RWLockBase) : List Op → List RWLockBase
  | [] => [self]
  | op :: ops =>
    self :: match self.apply op with
      | Outcome.returned l => RWLockBase.run l ops
      | Outcome.blocked => RWLockBase.run self ops
      | Outcome.aborted => []

/-- Every `Unlock` of the run is issued by a thread that holds the lock at that point. -/
def RWLockBase.unlocksByHolders (self : RWLockBase) : List Op → Bool
  | [] => true
  | op :: ops =>
    (match op with
      | Op.Unlock t => holds self.rwlock_ t
      | _ => true) &&
    match self.apply op with
      | Outcome.returned l => RWLockBase.unlocksByHolders l ops
      | Outcome.blocked => RWLockBase.unlocksByHolders self ops
      | Outcome.aborted => true

/-- A write hold is the only hold: no second writer and no reader beside a writer. -/
def exclusive (l : pthread_rwlock_t) : Prop :=
  ∀ h ∈ l, h.mode = Mode.write → l = [h]

/-- The call sequence in which each of the given threads takes the read lock. -/
def readersEnter (ts : List Tid) : List Op :=
  ts.map fun t => Op.RDLock { err := 0, wait := false } t

end common
end curve

/-! ## The leader locator cache of the specification -/

namespace LeaderLocator

/-- The `LeaderRecord` of the data model: `{groupId, nodeId, endpoint, epoch}`. -/
structure LeaderRecord where
  groupId : Nat
  nodeId : Nat
  endpoint : String
  epoch : Nat
  deriving DecidableEq, Repr

/-- Modelled from the spec: the Leader Locator Cache, of which the sources hold only the
locking primitive. It maps a replica-group identifier to at most one cached record. -/
abbrev Cache := Nat → Option LeaderRecord

/-- Modelled from the spec: the cache right after construction, every group a Miss. -/
def Cache.empty : Cache :=
  fun _ => none

/-- Modelled from the spec: `Lookup(groupId) → LeaderRecord | Miss`. -/
def Lookup (cache : Cache) (groupId : Nat) : Option LeaderRecord :=
  cache groupId

/-- Modelled from the spec: `Update(candidate)`, a compare-and-swap on epoch. The entry of
the candidate's group is replaced when there is none or when
`candidate.epoch >= current.epoch`; otherwise nothing changes. The Boolean tells
whether the candidate was applied. -/
def Update (cache : Cache) (candidate : LeaderRecord) : Bool × Cache :=
  match cache candidate.groupId with
  | none => (true, fun g => if g = candidate.groupId then some candidate else cache g)
  | some current =>
    if candidate.epoch ≥ current.epoch then
      (true, fun g => if g = candidate.groupId then some candidate else cache g)
    else (false, cache)

/-- A sequence of `Update` calls, in order; the cache after the last one. -/
def UpdateAll (cache : Cache) (candidates : List LeaderRecord) : Cache :=
  candidates.foldl (fun c candidate => (Update c candidate).2) cache

end LeaderLocator

/-! ## `unstable_chunkserver_exception_test.cpp` -/

namespace UnstableCSTest

/-! ### Machine integers -/

def INT_MAX : Int := 2147483647

def INT_MIN : Int := -2147483648

/-- Conversion of an integer value to `uint64_t` / `size_t`: reduction modulo `2^64`. -/
def toUInt64 (x : Int) : Nat :=
  (x % 2 ^ 64).toNat

/-- Conversion of an unsigned 64-bit value to `int`: the low 32 bits, read as two's
complement. -/
def toInt32 (x : Nat) : Int :=
  if x % 2 ^ 32 < 2 ^ 31 then (x % 2 ^ 32 : Nat) else (x % 2 ^ 32 : Nat) - 2 ^ 32

/-- Product of two `int`s; `none` when it leaves the range of `int` (undefined in C). -/
def mulInt (a b : Int) : Option Int :=
  if INT_MIN ≤ a * b ∧ a * b ≤ INT_MAX then some (a * b) else none

/-! ### `GenChunkserverConf` -/

def kCSConfPath : String := "./test/integration/unstable_test_cs.conf"

def chunkserverConfTemplate : List (List Char) :=
  [ "-raft_sync_segments=true".toList,
    ("-conf=" ++ kCSConfPath).toList,
    "-chunkServerPort=%d".toList,
    "-chunkServerStoreUri=local://./ttt/%d/".toList,
    "-chunkServerMetaUri=local://./ttt/%d/chunkserver.dat".toList,
    "-copySetUri=local://./ttt/%d/copysets".toList,
    "-raftSnapshotUri=curve://./ttt/%d/copysets".toList,
    "-raftLogUri=curve://./ttt/%d/copysets".toList,
    "-recycleUri=local://./ttt/%d/recycler".toList,
    "-chunkFilePoolDir=./ttt/%d/chunkfilepool/".toList,
    "-chunkFilePoolMetaPath=./ttt/%d/chunkfilepool.meta".toList,
    "-walFilePoolDir=./ttt/%d/walfilepool/".toList,
    "-walFilePoolMetaPath=./ttt/%d/walfilepool.meta".toList,
    "-mdsListenAddr=127.0.0.1:30010,127.0.0.1:30011,127.0.0.1:30012".toList,
    "-log_dir=./runlog/cs_%d".toList,
    "--stderrthreshold=3".toList ]

/-- The characters `printf` writes for a `%d` conversion of an `int`. -/
def formatInt (n : Int) : List Char :=
  if n < 0 then '-' :: Nat.toDigits 10 n.natAbs else Nat.toDigits 10 n.natAbs

/-- The text a `printf`-family call produces from a format and its `int` arguments:
`%d` takes the next argument, `%%` is a percent sign, every other character is copied.
`none` for what this model does not cover: another conversion, or a `%d` with no
argument left (undefined in C). -/
def vformat : List Char → List Int → Option (List Char)
  | [], _ => some []
  | '%' :: 'd' :: rest, a :: args => (vformat rest args).map fun s => formatInt a ++ s
  | '%' :: '%' :: rest, args => (vformat rest args).map fun s => '%' :: s
  | '%' :: _, _ => none
  | c :: rest, args => (vformat rest args).map fun s => c :: s

/-- The call `snprintf(temp, size, format, args...)`, read back as the C string in `temp`: at most
`size - 1` characters of the text are stored before the terminator. With `size = 0`
nothing is stored and `temp` stays uninitialised. -/
def snprintf (size : Nat) (format : List Char) (args : List Int) : Option (List Char) :=
  if size = 0 then none else (vformat format args).map fun s => s.take (size - 1)

/-- The lambda `formatter` of `GenChunkserverConf`: `snprintf` into
`char temp[NAME_MAX_SIZE]`, which is then returned. -/
def formatter (NAME_MAX_SIZE : Nat) (format : List Char) (port : Int) : Option (List Char) :=
  snprintf NAME_MAX_SIZE format [port]

/-- One statement `conf[i] = formatter(chunkserverConfTemplate[i], port);`. Indexing either
vector out of its bounds is undefined, hence `none`. -/
def assignFormatted (NAME_MAX_SIZE : Nat) (port : Int) (conf : List (List Char)) (i : Nat) :
    Option (List (List Char)) :=
  match chunkserverConfTemplate[i]? with
  | none => none
  | some format =>
    match formatter NAME_MAX_SIZE format port with
    | none => none
    | some s => if i < conf.length then some (conf.set i s) else none

/-- The indices `GenChunkserverConf` assigns, in the order of its statements. -/
def formattedIndices : List Nat :=
  [2, 3, 4, 5, 6, 7, 8, 9, 10, 11, 12, 14]

/-- Function `GenChunkserverConf(port)`: a copy of the template in which twelve entries are
overwritten by their formatted text. `NAME_MAX_SIZE` is a macro of a header that is not
part of the sources at hand and is a parameter here. The two `system` calls, which
recreate the log directory, do not touch the returned vector and are left out. -/
def GenChunkserverConf (NAME_MAX_SIZE : Nat) (port : Int) : Option (List (List Char)) :=
  formattedIndices.foldlM (assignFormatted NAME_MAX_SIZE port) chunkserverConfTemplate

/-- Every formatted entry of the configuration for this port, terminator included, has
room in `temp`. -/
def fitsNameMaxSize (NAME_MAX_SIZE : Nat) (port : Int) : Bool :=
  formattedIndices.all fun i =>
    match chunkserverConfTemplate[i]? with
    | none => false
    | some format =>
      match vformat format [port] with
      | none => false
      | some s => decide (s.length < NAME_MAX_SIZE)

/-- In the words of the specification: the entry with its `%d` placeholder (the first
occurrence of the two characters) replaced by the given text. -/
def replacePlaceholder (dec : List Char) : List Char → List Char
  | [] => []
  | '%' :: 'd' :: rest => dec ++ rest
  | c :: rest => c :: replacePlaceholder dec rest

/-- In the words of the specification: the decimal notation of the port. -/
def decimalPort (port : Int) : List Char :=
  (toString port).toList

/-- The entry contains the two characters `%d` next to each other. -/
def hasPlaceholder : List Char → Bool
  | [] => false
  | '%' :: 'd' :: _ => true
  | _ :: rest => hasPlaceholder rest

/-! ### `RandomWriteOffset`, `RandomWriteLength`, `AioWriteFunc` -/

/-- The expression `rand() % 32 * (16 * 1024 * 1024)` for the value `r` that `rand()` returned, as an
`off_t`; `%` truncates towards zero. -/
def RandomWriteOffset (r : Int) : Option Int :=
  mulInt (r.tmod 32) (16 * 1024 * 1024)

/-- The expression `rand() % 32 * 4096` for the value `r` that `rand()` returned, converted to `size_t`. -/
def RandomWriteLength (r : Int) : Option Nat :=
  (mulInt (r.tmod 32) 4096).map toUInt64

/-- The value of `sizeof(buffer)` for `static char buffer[1024 * 4096]`. -/
def sizeofBuffer : Nat := 1024 * 4096

/-- The fields of `CurveAioContext` that `AioWriteFunc` fills in with numbers. -/
structure CurveAioContext where
  offset : Int
  length : Nat
  deriving DecidableEq, Repr

/-- One turn of the loop of `AioWriteFunc`: the context handed to `AioWrite`, for the two
values `rand()` returns in that turn. -/
def AioWriteFunc (r1 r2 : Int) : Option CurveAioContext :=
  match RandomWriteOffset r1, RandomWriteLength r2 with
  | some offset, some length => some { offset := offset, length := length }
  | _, _ => none

/-! ### The measuring loops of `HangOneZone` -/

/-- The call `std::accumulate(first, last, 0)` over `uint64_t` elements. The accumulator has the
type of the initial value, `int`: each step adds in `unsigned long` and converts the sum
back to `int`. -/
def accumulate (xs : List Nat) (init : Int) : Int :=
  xs.foldl (fun acc x => toInt32 ((toUInt64 acc + x) % 2 ^ 64)) init

/-- The expression `std::accumulate(records.begin(), records.end(), 0) / records.size()`: the `int` sum is
converted to `size_t` for the division; dividing by zero is undefined. -/
def avgIOps (records : List Nat) : Option Nat :=
  if records.length = 0 then none
  else some (toUInt64 (accumulate records 0) / records.length)

/-- The first loop: `i = 1 .. 30`, one reading per second after the first 30 seconds;
`iops s` is what `iops.value.get_value(1)` returns at second `s` of writing. -/
def beforeRecords (iops : Nat → Nat) : List Nat :=
  (List.range' 1 30).foldl (fun records i => records ++ [iops (30 + i)]) []

/-- The second loop: `i = 1 .. 10`, the reading of second `i` after the hang is pushed
`if (i >= 5)`. -/
def afterRecords (iops : Nat → Nat) : List Nat :=
  (List.range' 1 10).foldl
    (fun records i => let tmp := iops i; if i ≥ 5 then records ++ [tmp] else records) []

/-- The average logged as `iops before hang`. -/
def beforeAvgIOps (iops : Nat → Nat) : Option Nat :=
  avgIOps (beforeRecords iops)

/-- The average compared against `beforeAvgIOps * 0.6`. -/
def afterAvgIOps (iops : Nat → Nat) : Option Nat :=
  avgIOps (afterRecords iops)

/-- The integer mean `floor(sum / count)` of a list of readings. -/
def integerMean (records : List Nat) : Nat :=
  records.sum / records.length

end UnstableCSTest

/-! # Theorems -/

namespace curve
namespace common

/-! ## The primitives, case by case -/

theorem wrlock_cases (sys : Sys) (t : Tid) (l : pthread_rwlock_t) :
    (sys.err ≠ 0 ∧ pthread_rwlock_wrlock sys t l = PthreadResult.ret sys.err l) ∨
    (sys.err = 0 ∧ pthread_rwlock_wrlock sys t l = PthreadResult.ret 0 (⟨t, Mode.write⟩ :: l)
      ∧ l = []) ∨
    (sys.err = 0 ∧ pthread_rwlock_wrlock sys t l = PthreadResult.blocked) := by
  unfold pthread_rwlock_wrlock
  by_cases he : sys.err = 0
  · by_cases hc : (writeCompatible l && !sys.wait) = true
    · right; left
      refine ⟨he, by simp [he, hc], ?_⟩
      simp [writeCompatible] at hc
      exact hc.1
    · right; right
      exact ⟨he, by simp [he, hc]⟩
  · left; exact ⟨he, by simp [he]⟩

theorem rdlock_cases (sys : Sys) (t : Tid) (l : pthread_rwlock_t) :
    (sys.err ≠ 0 ∧ pthread_rwlock_rdlock sys t l = PthreadResult.ret sys.err l) ∨
    (sys.err = 0 ∧ pthread_rwlock_rdlock sys t l = PthreadResult.ret 0 (⟨t, Mode.read⟩ :: l)
      ∧ ∀ h ∈ l, h.mode = Mode.read) ∨
    (sys.err = 0 ∧ pthread_rwlock_rdlock sys t l = PthreadResult.blocked) := by
  unfold pthread_rwlock_rdlock
  by_cases he : sys.err = 0
  · by_cases hc : (readCompatible l && !sys.wait) = true
    · right; left
      refine ⟨he, by simp [he, hc], ?_⟩
      simp [readCompatible] at hc
      intro h hh
      have := hc.1 h hh
      cases hm : h.mode with
      | read => rfl
      | write => exact absurd hm this
    · right; right
      exact ⟨he, by simp [he, hc]⟩
  · left; exact ⟨he, by simp [he]⟩

theorem trywrlock_cases (sys : Sys) (t : Tid) (l : pthread_rwlock_t) :
    (pthread_rwlock_trywrlock sys t l = PthreadResult.ret 0 (⟨t, Mode.write⟩ :: l) ∧ l = []) ∨
    (∃ code, code ≠ 0 ∧ pthread_rwlock_trywrlock sys t l = PthreadResult.ret code l) := by
  unfold pthread_rwlock_trywrlock
  by_cases he : sys.err = 0
  · by_cases hc : (writeCompatible l && !sys.wait) = true
    · left
      refine ⟨by simp [he, hc], ?_⟩
      simp [writeCompatible] at hc
      exact hc.1
    · right
      exact ⟨EBUSY, by decide, by simp [he, hc]⟩
  · right; exact ⟨sys.err, he, by simp [he]⟩

theorem tryrdlock_cases (sys : Sys) (t : Tid) (l : pthread_rwlock_t) :
    (pthread_rwlock_tryrdlock sys t l = PthreadResult.ret 0 (⟨t, Mode.read⟩ :: l) ∧
      ∀ h ∈ l, h.mode = Mode.read) ∨
    (∃ code, code ≠ 0 ∧ pthread_rwlock_tryrdlock sys t l = PthreadResult.ret code l) := by
  unfold pthread_rwlock_tryrdlock
  by_cases he : sys.err = 0
  · by_cases hc : (readCompatible l && !sys.wait) = true
    · left
      refine ⟨by simp [he, hc], ?_⟩
      simp [readCompatible] at hc
      intro h hh
      have := hc.1 h hh
      cases hm : h.mode with
      | read => rfl
      | write => exact absurd hm this
    · right
      exact ⟨EBUSY, by decide, by simp [he, hc]⟩
  · right; exact ⟨sys.err, he, by simp [he]⟩

theorem cons_ne_self {α : Type} (a : α) (l : List α) : a :: l ≠ l := by
  intro h
  have := congrArg List.length h
  simp at this

/-! ## The wrappers of `RWLockBase` -/

/-- A `WRLock()` that returns has seen the primitive return 0 and holds the write lock. -/
theorem WRLock_returned (sys : Sys) (t : Tid) (self l : RWLockBase)
    (h : self.WRLock sys t = Outcome.returned l) :
    pthread_rwlock_wrlock sys t self.rwlock_ = PthreadResult.ret 0 l.rwlock_ ∧
    l.rwlock_ = ⟨t, Mode.write⟩ :: self.rwlock_ ∧ l.rwlockAttr_ = self.rwlockAttr_ := by
  unfold RWLockBase.WRLock at h
  rcases wrlock_cases sys t self.rwlock_ with ⟨he, hp⟩ | ⟨_, hp, _⟩ | ⟨_, hp⟩
  · rw [hp] at h; simp [Ne.symm he] at h
  · rw [hp] at h
    simp at h
    subst h
    exact ⟨hp, rfl, rfl⟩
  · rw [hp] at h; simp at h

/-- What `WRLock()` does with each return value of the primitive. -/
theorem WRLock_of_ret (sys : Sys) (t : Tid) (self : RWLockBase) (code : Nat)
    (l : pthread_rwlock_t)
    (h : pthread_rwlock_wrlock sys t self.rwlock_ = PthreadResult.ret code l) :
    (code = 0 → self.WRLock sys t = Outcome.returned { self with rwlock_ := l }) ∧
    (code ≠ 0 → self.WRLock sys t = Outcome.aborted) := by
  unfold RWLockBase.WRLock
  rw [h]
  constructor
  · intro hc; simp [hc]
  · intro hc; simp [Ne.symm hc]

/-- A `RDLock()` that returns has seen the primitive return 0 and holds a read lock. -/
theorem RDLock_returned (sys : Sys) (t : Tid) (self l : RWLockBase)
    (h : self.RDLock sys t = Outcome.returned l) :
    pthread_rwlock_rdlock sys t self.rwlock_ = PthreadResult.ret 0 l.rwlock_ ∧
    l.rwlock_ = ⟨t, Mode.read⟩ :: self.rwlock_ ∧ l.rwlockAttr_ = self.rwlockAttr_ := by
  unfold RWLockBase.RDLock at h
  rcases rdlock_cases sys t self.rwlock_ with ⟨he, hp⟩ | ⟨_, hp, _⟩ | ⟨_, hp⟩
  · rw [hp] at h; simp [Ne.symm he] at h
  · rw [hp] at h
    simp at h
    subst h
    exact ⟨hp, rfl, rfl⟩
  · rw [hp] at h; simp at h

/-- What `RDLock()` does with each return value of the primitive. -/
theorem RDLock_of_ret (sys : Sys) (t : Tid) (self : RWLockBase) (code : Nat)
    (l : pthread_rwlock_t)
    (h : pthread_rwlock_rdlock sys t self.rwlock_ = PthreadResult.ret code l) :
    (code = 0 → self.RDLock sys t = Outcome.returned { self with rwlock_ := l }) ∧
    (code ≠ 0 → self.RDLock sys t = Outcome.aborted) := by
  unfold RWLockBase.RDLock
  rw [h]
  constructor
  · intro hc; simp [hc]
  · intro hc; simp [Ne.symm hc]

/-- Method `TryWRLock()` always returns; 0 exactly when the write hold was added. -/
theorem TryWRLock_returns (sys : Sys) (t : Tid) (self : RWLockBase) :
    ∃ code l, self.TryWRLock sys t = Outcome.returned (code, l) ∧
      pthread_rwlock_trywrlock sys t self.rwlock_ = PthreadResult.ret code l.rwlock_ ∧
      (code = 0 ↔ l.rwlock_ = ⟨t, Mode.write⟩ :: self.rwlock_) ∧
      (code ≠ 0 → l = self) := by
  unfold RWLockBase.TryWRLock
  rcases trywrlock_cases sys t self.rwlock_ with ⟨hp, _⟩ | ⟨code, hc, hp⟩
  · exact ⟨0, { self with rwlock_ := ⟨t, Mode.write⟩ :: self.rwlock_ }, by rw [hp], hp,
      by simp, by simp⟩
  · refine ⟨code, self, by rw [hp], hp, ?_, fun _ => rfl⟩
    constructor
    · intro h; exact absurd h hc
    · intro h; exact absurd h.symm (cons_ne_self _ _)

/-- Method `TryRDLock()` always returns; 0 exactly when the read hold was added. -/
theorem TryRDLock_returns (sys : Sys) (t : Tid) (self : RWLockBase) :
    ∃ code l, self.TryRDLock sys t = Outcome.returned (code, l) ∧
      pthread_rwlock_tryrdlock sys t self.rwlock_ = PthreadResult.ret code l.rwlock_ ∧
      (code = 0 ↔ l.rwlock_ = ⟨t, Mode.read⟩ :: self.rwlock_) ∧
      (code ≠ 0 → l = self) := by
  unfold RWLockBase.TryRDLock
  rcases tryrdlock_cases sys t self.rwlock_ with ⟨hp, _⟩ | ⟨code, hc, hp⟩
  · exact ⟨0, { self with rwlock_ := ⟨t, Mode.read⟩ :: self.rwlock_ }, by rw [hp], hp,
      by simp, by simp⟩
  · refine ⟨code, self, by rw [hp], hp, ?_, fun _ => rfl⟩
    constructor
    · intro h; exact absurd h hc
    · intro h; exact absurd h.symm (cons_ne_self _ _)

/-- Claim C6. A failed acquisition is never silent. `WRLock` and `RDLock` return only when
the primitive returned 0, and then the caller's hold in the requested mode has been added
to the lock; on every non-zero result of the primitive they abort. `TryWRLock` and
`TryRDLock` always return (they neither abort nor wait), hand back the primitive's code,
return 0 exactly when the caller's hold in the requested mode has been added, and leave
the lock as it was when they return a non-zero code. -/
theorem lock_acquisition_failure_is_never_silent (sys : Sys) (t : Tid) (self : RWLockBase) :
    (∀ l, self.WRLock sys t = Outcome.returned l →
      pthread_rwlock_wrlock sys t self.rwlock_ = PthreadResult.ret 0 l.rwlock_ ∧
      l.rwlock_ = ⟨t, Mode.write⟩ :: self.rwlock_ ∧ l.rwlockAttr_ = self.rwlockAttr_) ∧
    (∀ code l, pthread_rwlock_wrlock sys t self.rwlock_ = PthreadResult.ret code l →
      (code = 0 → self.WRLock sys t = Outcome.returned { self with rwlock_ := l }) ∧
      (code ≠ 0 → self.WRLock sys t = Outcome.aborted)) ∧
    (∀ l, self.RDLock sys t = Outcome.returned l →
      pthread_rwlock_rdlock sys t self.rwlock_ = PthreadResult.ret 0 l.rwlock_ ∧
      l.rwlock_ = ⟨t, Mode.read⟩ :: self.rwlock_ ∧ l.rwlockAttr_ = self.rwlockAttr_) ∧
    (∀ code l, pthread_rwlock_rdlock sys t self.rwlock_ = PthreadResult.ret code l →
      (code = 0 → self.RDLock sys t = Outcome.returned { self with rwlock_ := l }) ∧
      (code ≠ 0 → self.RDLock sys t = Outcome.aborted)) ∧
    (∃ code l, self.TryWRLock sys t = Outcome.returned (code, l) ∧
      pthread_rwlock_trywrlock sys t self.rwlock_ = PthreadResult.ret code l.rwlock_ ∧
      (code = 0 ↔ l.rwlock_ = ⟨t, Mode.write⟩ :: self.rwlock_) ∧
      (code ≠ 0 → l = self)) ∧
    (∃ code l, self.TryRDLock sys t = Outcome.returned (code, l) ∧
      pthread_rwlock_tryrdlock sys t self.rwlock_ = PthreadResult.ret code l.rwlock_ ∧
      (code = 0 ↔ l.rwlock_ = ⟨t, Mode.read⟩ :: self.rwlock_) ∧
      (code ≠ 0 → l = self)) :=
  ⟨fun l h => WRLock_returned sys t self l h,
   fun code l h => WRLock_of_ret sys t self code l h,
   fun l h => RDLock_returned sys t self l h,
   fun code l h => RDLock_of_ret sys t self code l h,
   TryWRLock_returns sys t self,
   TryRDLock_returns sys t self⟩

/-- The wrappers on concrete locks: an error code aborts, a busy lock makes the blocking
call wait and the `try` call return `EBUSY` with the lock untouched. -/
theorem wrapper_outcomes_on_samples :
    RWLock.WRLock ⟨0, false⟩ 7 = Outcome.returned ⟨[⟨7, Mode.write⟩], none⟩ ∧
    RWLock.WRLock ⟨35, false⟩ 7 = Outcome.aborted ∧
    RWLockBase.RDLock ⟨0, false⟩ 8 ⟨[⟨7, Mode.write⟩], none⟩ = Outcome.blocked ∧
    RWLockBase.TryRDLock ⟨0, false⟩ 8 ⟨[⟨7, Mode.write⟩], none⟩ =
      Outcome.returned (16, ⟨[⟨7, Mode.write⟩], none⟩) ∧
    RWLockBase.TryWRLock ⟨0, false⟩ 8 ⟨[⟨7, Mode.read⟩], none⟩ =
      Outcome.returned (16, ⟨[⟨7, Mode.read⟩], none⟩) ∧
    RWLockBase.TryRDLock ⟨0, false⟩ 8 ⟨[⟨7, Mode.read⟩], none⟩ =
      Outcome.returned (0, ⟨[⟨8, Mode.read⟩, ⟨7, Mode.read⟩], none⟩) := by
  decide

/-! ## Scope guards -/

theorem unlock_after_acquire (t : Tid) (m : Mode) (l : pthread_rwlock_t) :
    pthread_rwlock_unlock t (⟨t, m⟩ :: l) = (0, l) := by
  simp [pthread_rwlock_unlock, holds, List.eraseP]

theorem Unlock_after_acquire (t : Tid) (m : Mode) (self : RWLockBase) :
    RWLockBase.Unlock t { self with rwlock_ := ⟨t, m⟩ :: self.rwlock_ } = self := by
  simp [RWLockBase.Unlock, unlock_after_acquire]

theorem ReadLockGuard_ctor_returned (sys : Sys) (t : Tid) (p p1 : Proc)
    (h : ReadLockGuard.ctor sys t p = Outcome.returned p1) :
    pthread_rwlock_rdlock sys t p.lock.rwlock_ = PthreadResult.ret 0 p1.lock.rwlock_ ∧
    p1 = { lock := { p.lock with rwlock_ := ⟨t, Mode.read⟩ :: p.lock.rwlock_ },
           calls := p.calls ++ [Call.RDLock t] } := by
  unfold ReadLockGuard.ctor at h
  cases hl : p.lock.RDLock sys t with
  | returned l =>
    rw [hl] at h
    simp at h
    obtain ⟨h1, h2, h3⟩ := RDLock_returned sys t p.lock l hl
    subst h
    refine ⟨h1, ?_⟩
    cases l
    simp at h2 h3 ⊢
    exact ⟨h2, h3⟩
  | aborted => rw [hl] at h; simp at h
  | blocked => rw [hl] at h; simp at h

theorem WriteLockGuard_ctor_returned (sys : Sys) (t : Tid) (p p1 : Proc)
    (h : WriteLockGuard.ctor sys t p = Outcome.returned p1) :
    pthread_rwlock_wrlock sys t p.lock.rwlock_ = PthreadResult.ret 0 p1.lock.rwlock_ ∧
    p1 = { lock := { p.lock with rwlock_ := ⟨t, Mode.write⟩ :: p.lock.rwlock_ },
           calls := p.calls ++ [Call.WRLock t] } := by
  unfold WriteLockGuard.ctor at h
  cases hl : p.lock.WRLock sys t with
  | returned l =>
    rw [hl] at h
    simp at h
    obtain ⟨h1, h2, h3⟩ := WRLock_returned sys t p.lock l hl
    subst h
    refine ⟨h1, ?_⟩
    cases l
    simp at h2 h3 ⊢
    exact ⟨h2, h3⟩
  | aborted => rw [hl] at h; simp at h
  | blocked => rw [hl] at h; simp at h

/-- Claim C1. For both guard kinds and every lock: a block that owns a guard and is left
(normally, by an early return or by an exception) has made exactly two calls on the lock
through the guard, the acquire (`RDLock` resp. `WRLock`) in the constructor before the
body and `Unlock` in the destructor after it; the acquire had returned 0; if the body
leaves the lock as it found it, the lock is back in the state it had before the guard was
constructed. A non-zero result of the acquire aborts in the constructor, so that no guard
and no destructor call exist. When the acquire returns 0 and the body is left, the block
does complete, with the destructor run. -/
theorem guard_acquires_once_releases_once_and_restores {α : Type} (sys : Sys) (t : Tid)
    (body : Proc → Outcome (Exit α × Proc)) (p : Proc) :
    (∀ e q, ReadLockGuard.scope sys t body p = Outcome.returned (e, q) →
      ∃ p1 p2, ReadLockGuard.ctor sys t p = Outcome.returned p1 ∧
        pthread_rwlock_rdlock sys t p.lock.rwlock_ = PthreadResult.ret 0 p1.lock.rwlock_ ∧
        p1.calls = p.calls ++ [Call.RDLock t] ∧
        body p1 = Outcome.returned (e, p2) ∧
        q = ReadLockGuard.dtor t p2 ∧
        q.calls = p2.calls ++ [Call.Unlock t] ∧
        (p2.lock = p1.lock → q.lock = p.lock) ∧
        (p2 = p1 → q = { lock := p.lock, calls := p.calls ++ [Call.RDLock t, Call.Unlock t] })) ∧
    (∀ code l, pthread_rwlock_rdlock sys t p.lock.rwlock_ = PthreadResult.ret code l →
      code ≠ 0 → ReadLockGuard.ctor sys t p = Outcome.aborted ∧
        ReadLockGuard.scope sys t body p = Outcome.aborted) ∧
    (∀ l e p2, pthread_rwlock_rdlock sys t p.lock.rwlock_ = PthreadResult.ret 0 l →
      body { lock := { p.lock with rwlock_ := l }, calls := p.calls ++ [Call.RDLock t] } =
        Outcome.returned (e, p2) →
      ReadLockGuard.scope sys t body p = Outcome.returned (e, ReadLockGuard.dtor t p2)) ∧
    (∀ e q, WriteLockGuard.scope sys t body p = Outcome.returned (e, q) →
      ∃ p1 p2, WriteLockGuard.ctor sys t p = Outcome.returned p1 ∧
        pthread_rwlock_wrlock sys t p.lock.rwlock_ = PthreadResult.ret 0 p1.lock.rwlock_ ∧
        p1.calls = p.calls ++ [Call.WRLock t] ∧
        body p1 = Outcome.returned (e, p2) ∧
        q = WriteLockGuard.dtor t p2 ∧
        q.calls = p2.calls ++ [Call.Unlock t] ∧
        (p2.lock = p1.lock → q.lock = p.lock) ∧
        (p2 = p1 → q = { lock := p.lock, calls := p.calls ++ [Call.WRLock t, Call.Unlock t] })) ∧
    (∀ code l, pthread_rwlock_wrlock sys t p.lock.rwlock_ = PthreadResult.ret code l →
      code ≠ 0 → WriteLockGuard.ctor sys t p = Outcome.aborted ∧
        WriteLockGuard.scope sys t body p = Outcome.aborted) ∧
    (∀ l e p2, pthread_rwlock_wrlock sys t p.lock.rwlock_ = PthreadResult.ret 0 l →
      body { lock := { p.lock with rwlock_ := l }, calls := p.calls ++ [Call.WRLock t] } =
        Outcome.returned (e, p2) →
      WriteLockGuard.scope sys t body p = Outcome.returned (e, WriteLockGuard.dtor t p2)) := by
  refine ⟨?_, ?_, ?_, ?_, ?_, ?_⟩
  · intro e q h
    unfold ReadLockGuard.scope at h
    cases hc : ReadLockGuard.ctor sys t p with
    | returned p1 =>
      rw [hc] at h
      cases hb : body p1 with
      | returned r =>
        obtain ⟨e2, p2⟩ := r
        simp [hb] at h
        obtain ⟨rfl, rfl⟩ := h
        obtain ⟨hp, hp1⟩ := ReadLockGuard_ctor_returned sys t p p1 hc
        refine ⟨p1, p2, rfl, hp, by rw [hp1], hb, rfl, rfl, ?_, ?_⟩
        · intro hl
          simp only [ReadLockGuard.dtor]
          rw [hl, hp1]
          exact Unlock_after_acquire t Mode.read p.lock
        · intro hl
          subst hl
          simp only [ReadLockGuard.dtor]
          rw [hp1]
          simp [Unlock_after_acquire]
      | aborted => simp [hb] at h
      | blocked => simp [hb] at h
    | aborted => rw [hc] at h; simp at h
    | blocked => rw [hc] at h; simp at h
  · intro code l h hne
    have hr := (RDLock_of_ret sys t p.lock code l h).2 hne
    have hc : ReadLockGuard.ctor sys t p = Outcome.aborted := by
      unfold ReadLockGuard.ctor; rw [hr]
    exact ⟨hc, by unfold ReadLockGuard.scope; rw [hc]⟩
  · intro l e p2 h hb
    have hr := (RDLock_of_ret sys t p.lock 0 l h).1 rfl
    have hc : ReadLockGuard.ctor sys t p = Outcome.returned
        { lock := { p.lock with rwlock_ := l }, calls := p.calls ++ [Call.RDLock t] } := by
      unfold ReadLockGuard.ctor; rw [hr]
    unfold ReadLockGuard.scope
    rw [hc]
    simp only [hb]
  · intro e q h
    unfold WriteLockGuard.scope at h
    cases hc : WriteLockGuard.ctor sys t p with
    | returned p1 =>
      rw [hc] at h
      cases hb : body p1 with
      | returned r =>
        obtain ⟨e2, p2⟩ := r
        simp [hb] at h
        obtain ⟨rfl, rfl⟩ := h
        obtain ⟨hp, hp1⟩ := WriteLockGuard_ctor_returned sys t p p1 hc
        refine ⟨p1, p2, rfl, hp, by rw [hp1], hb, rfl, rfl, ?_, ?_⟩
        · intro hl
          simp only [WriteLockGuard.dtor]
          rw [hl, hp1]
          exact Unlock_after_acquire t Mode.write p.lock
        · intro hl
          subst hl
          simp only [WriteLockGuard.dtor]
          rw [hp1]
          simp [Unlock_after_acquire]
      | aborted => simp [hb] at h
      | blocked => simp [hb] at h
    | aborted => rw [hc] at h; simp at h
    | blocked => rw [hc] at h; simp at h
  · intro code l h hne
    have hr := (WRLock_of_ret sys t p.lock code l h).2 hne
    have hc : WriteLockGuard.ctor sys t p = Outcome.aborted := by
      unfold WriteLockGuard.ctor; rw [hr]
    exact ⟨hc, by unfold WriteLockGuard.scope; rw [hc]⟩
  · intro l e p2 h hb
    have hr := (WRLock_of_ret sys t p.lock 0 l h).1 rfl
    have hc : WriteLockGuard.ctor sys t p = Outcome.returned
        { lock := { p.lock with rwlock_ := l }, calls := p.calls ++ [Call.WRLock t] } := by
      unfold WriteLockGuard.ctor; rw [hr]
    unfold WriteLockGuard.scope
    rw [hc]
    simp only [hb]

/-- A guarded block on concrete data, left by an exception: the lock is back as it was and
the history shows the acquire followed by the release. -/
theorem guard_scope_on_samples :
    ReadLockGuard.scope ⟨0, false⟩ 1
        (fun q => Outcome.returned ((Exit.thrown "bad" : Exit Unit), q))
        ⟨⟨[⟨2, Mode.read⟩], none⟩, []⟩ =
      Outcome.returned (Exit.thrown "bad",
        ⟨⟨[⟨2, Mode.read⟩], none⟩, [Call.RDLock 1, Call.Unlock 1]⟩) ∧
    WriteLockGuard.scope ⟨0, false⟩ 1
        (fun q => Outcome.returned (Exit.earlyReturn (), q)) ⟨WritePreferedRWLock, []⟩ =
      Outcome.returned (Exit.earlyReturn (),
        ⟨WritePreferedRWLock, [Call.WRLock 1, Call.Unlock 1]⟩) ∧
    WriteLockGuard.scope ⟨35, false⟩ 1
        (fun q => Outcome.returned (Exit.normal (), q)) ⟨RWLock, []⟩ = Outcome.aborted := by
  decide

/-! ## Runs: writers exclude, readers share -/

theorem exclusive_nil : exclusive [] := by
  intro h hh; cases hh

theorem exclusive_of_all_read (l : pthread_rwlock_t) (h : ∀ x ∈ l, x.mode = Mode.read) :
    exclusive l := by
  intro x hx hw
  rw [h x hx] at hw
  cases hw

theorem exclusive_single_write (t : Tid) : exclusive [⟨t, Mode.write⟩] := by
  intro x hx _
  simp at hx
  rw [hx]

theorem exclusive_cons_read (t : Tid) (l : pthread_rwlock_t) (h : ∀ x ∈ l, x.mode = Mode.read) :
    exclusive (⟨t, Mode.read⟩ :: l) := by
  apply exclusive_of_all_read
  intro x hx
  rcases List.mem_cons.1 hx with rfl | hx
  · rfl
  · exact h x hx

theorem exclusive_eraseP (l : pthread_rwlock_t) (f : Hold → Bool) (h : exclusive l) :
    exclusive (l.eraseP f) := by
  intro x hx hw
  have hxl : x ∈ l := List.mem_of_mem_eraseP hx
  have hl := h x hxl hw
  rw [hl] at hx ⊢
  by_cases hf : f x = true
  · simp [List.eraseP, hf] at hx
  · simp [List.eraseP, hf]

theorem exclusive_unlock (t : Tid) (l : pthread_rwlock_t) (h : exclusive l) :
    exclusive (pthread_rwlock_unlock t l).2 := by
  unfold pthread_rwlock_unlock
  split
  · exact exclusive_eraseP l _ h
  · exact h

theorem exclusive_apply (self l : RWLockBase) (op : Op) (h : exclusive self.rwlock_)
    (ha : self.apply op = Outcome.returned l) : exclusive l.rwlock_ := by
  cases op with
  | RDLock sys t =>
    simp only [RWLockBase.apply, RWLockBase.RDLock] at ha
    rcases rdlock_cases sys t self.rwlock_ with ⟨he, hp⟩ | ⟨_, hp, hr⟩ | ⟨_, hp⟩
    · simp [hp, Ne.symm he] at ha
    · simp [hp] at ha
      subst ha
      exact exclusive_cons_read t _ hr
    · simp [hp] at ha
  | WRLock sys t =>
    simp only [RWLockBase.apply, RWLockBase.WRLock] at ha
    rcases wrlock_cases sys t self.rwlock_ with ⟨he, hp⟩ | ⟨_, hp, hr⟩ | ⟨_, hp⟩
    · simp [hp, Ne.symm he] at ha
    · simp [hp] at ha
      subst ha
      simp only [hr]
      exact exclusive_single_write t
    · simp [hp] at ha
  | TryRDLock sys t =>
    simp only [RWLockBase.apply, RWLockBase.TryRDLock] at ha
    rcases tryrdlock_cases sys t self.rwlock_ with ⟨hp, hr⟩ | ⟨code, _, hp⟩
    · simp [hp] at ha
      subst ha
      exact exclusive_cons_read t _ hr
    · simp [hp] at ha
      subst ha
      exact h
  | TryWRLock sys t =>
    simp only [RWLockBase.apply, RWLockBase.TryWRLock] at ha
    rcases trywrlock_cases sys t self.rwlock_ with ⟨hp, hr⟩ | ⟨code, _, hp⟩
    · simp [hp] at ha
      subst ha
      simp only [hr]
      exact exclusive_single_write t
    · simp [hp] at ha
      subst ha
      exact h
  | Unlock t =>
    simp only [RWLockBase.apply, Outcome.returned.injEq] at ha
    subst ha
    exact exclusive_unlock t _ h

theorem exclusive_run (ops : List Op) : ∀ self : RWLockBase, exclusive self.rwlock_ →
    ∀ s ∈ self.run ops, exclusive s.rwlock_ := by
  induction ops with
  | nil =>
    intro self h s hs
    simp [RWLockBase.run] at hs
    rw [hs]; exact h
  | cons op ops ih =>
    intro self h s hs
    simp only [RWLockBase.run, List.mem_cons] at hs
    rcases hs with rfl | hs
    · exact h
    · cases ha : self.apply op with
      | returned l =>
        rw [ha] at hs
        exact ih l (exclusive_apply self l op h ha) s hs
      | blocked =>
        rw [ha] at hs
        exact ih self h s hs
      | aborted =>
        rw [ha] at hs
        cases hs

theorem readersEnter_run (ts : List Tid) : ∀ self : RWLockBase,
    (∀ x ∈ self.rwlock_, x.mode = Mode.read) →
    { self with rwlock_ := (ts.map fun t => (⟨t, Mode.read⟩ : Hold)).reverse ++ self.rwlock_ } ∈
      self.run (readersEnter ts) := by
  induction ts with
  | nil => intro self _; simp [readersEnter, RWLockBase.run]
  | cons t ts ih =>
    intro self h
    have hc : readCompatible self.rwlock_ = true := by
      simp only [readCompatible, List.all_eq_true, decide_eq_true_eq]
      intro x hx; rw [h x hx]; decide
    have ha : self.apply (Op.RDLock { err := 0, wait := false } t) =
        Outcome.returned { self with rwlock_ := ⟨t, Mode.read⟩ :: self.rwlock_ } := by
      simp [RWLockBase.apply, RWLockBase.RDLock, pthread_rwlock_rdlock, hc]
    have := ih { self with rwlock_ := ⟨t, Mode.read⟩ :: self.rwlock_ } (by
      intro x hx
      rcases List.mem_cons.1 hx with rfl | hx
      · rfl
      · exact h x hx)
    simp only [readersEnter, List.map_cons, RWLockBase.run, ha, List.reverse_cons,
      List.append_assoc, List.singleton_append] at this ⊢
    exact List.mem_cons_of_mem _ this

/-- Claim C2. On a lock fresh from either constructor, for every sequence of `RDLock`,
`WRLock`, `TryRDLock`, `TryWRLock` and `Unlock` calls in which each `Unlock` comes from a
current holder, every lock state visited is exclusive: a write hold is never granted
together with any other hold, read or write. Reads are shared: for any list of threads,
the state in which all of them hold the lock for reading at once is reached by letting
them take the read lock one after the other. -/
theorem read_shared_write_exclusive (init : RWLockBase) (ops : List Op)
    (hinit : init = RWLock ∨ init = WritePreferedRWLock)
    (_hholder : init.unlocksByHolders ops = true) :
    (∀ s ∈ init.run ops, exclusive s.rwlock_) ∧
    (∀ ts : List Tid,
      { init with rwlock_ := (ts.map fun t => (⟨t, Mode.read⟩ : Hold)).reverse } ∈
        init.run (readersEnter ts)) := by
  have h0 : init.rwlock_ = [] := by rcases hinit with rfl | rfl <;> rfl
  refine ⟨exclusive_run ops init (by rw [h0]; exact exclusive_nil), ?_⟩
  intro ts
  have := readersEnter_run ts init (by rw [h0]; intro x hx; cases hx)
  rw [h0] at this; simpa using this

theorem read_shared_write_exclusive_witness :
    (∀ s ∈ RWLock.run
        [Op.RDLock ⟨0, false⟩ 1, Op.RDLock ⟨0, false⟩ 2, Op.TryWRLock ⟨0, false⟩ 3,
         Op.WRLock ⟨0, false⟩ 3, Op.Unlock 1, Op.Unlock 2, Op.WRLock ⟨0, false⟩ 3,
         Op.TryRDLock ⟨0, false⟩ 1, Op.RDLock ⟨0, false⟩ 2, Op.Unlock 3],
      exclusive s.rwlock_) ∧
    (∀ ts : List Tid,
      { RWLock with rwlock_ := (ts.map fun t => (⟨t, Mode.read⟩ : Hold)).reverse } ∈
        RWLock.run (readersEnter ts)) :=
  read_shared_write_exclusive RWLock
    [Op.RDLock ⟨0, false⟩ 1, Op.RDLock ⟨0, false⟩ 2, Op.TryWRLock ⟨0, false⟩ 3,
     Op.WRLock ⟨0, false⟩ 3, Op.Unlock 1, Op.Unlock 2, Op.WRLock ⟨0, false⟩ 3,
     Op.TryRDLock ⟨0, false⟩ 1, Op.RDLock ⟨0, false⟩ 2, Op.Unlock 3]
    (Or.inl rfl) (by decide)

/-- The run of the sample sequence, state by state: two readers together, the writer
refused and then waiting, the writer alone once both readers have left, readers refused
and waiting while it holds, the lock free again at the end. -/
theorem run_on_samples :
    (RWLock.run
        [Op.RDLock ⟨0, false⟩ 1, Op.RDLock ⟨0, false⟩ 2, Op.TryWRLock ⟨0, false⟩ 3,
         Op.WRLock ⟨0, false⟩ 3, Op.Unlock 1, Op.Unlock 2, Op.WRLock ⟨0, false⟩ 3,
         Op.TryRDLock ⟨0, false⟩ 1, Op.RDLock ⟨0, false⟩ 2, Op.Unlock 3]).map
        (fun s => s.rwlock_) =
      [[], [⟨1, Mode.read⟩], [⟨2, Mode.read⟩, ⟨1, Mode.read⟩],
       [⟨2, Mode.read⟩, ⟨1, Mode.read⟩], [⟨2, Mode.read⟩, ⟨1, Mode.read⟩],
       [⟨2, Mode.read⟩], [], [⟨3, Mode.write⟩], [⟨3, Mode.write⟩], [⟨3, Mode.write⟩], []] := by
  decide

end common
end curve

/-! ## The leader locator cache -/

namespace LeaderLocator

theorem Update_applied_iff (cache : Cache) (c : LeaderRecord) :
    (Update cache c).1 = true ↔
      (Lookup cache c.groupId = none ∨
        ∃ cur, Lookup cache c.groupId = some cur ∧ c.epoch ≥ cur.epoch) := by
  unfold Update Lookup
  cases h : cache c.groupId with
  | none => simp
  | some cur =>
    by_cases he : c.epoch ≥ cur.epoch
    · simp [he]
    · simp [he]

theorem Update_applied (cache : Cache) (c : LeaderRecord) (h : (Update cache c).1 = true) :
    (Update cache c).2 = fun g => if g = c.groupId then some c else cache g := by
  unfold Update at h ⊢
  cases hc : cache c.groupId with
  | none => simp
  | some cur =>
    rw [hc] at h
    by_cases he : c.epoch ≥ cur.epoch
    · simp [he]
    · simp [he] at h

theorem Update_not_applied (cache : Cache) (c : LeaderRecord) (h : (Update cache c).1 = false) :
    (Update cache c).2 = cache := by
  unfold Update at h ⊢
  cases hc : cache c.groupId with
  | none => rw [hc] at h; simp at h
  | some cur =>
    rw [hc] at h
    by_cases he : c.epoch ≥ cur.epoch
    · simp [he] at h
    · simp [he]

/-- One `Update` never lowers the epoch cached for any group. -/
theorem Update_epoch_le (cache : Cache) (c : LeaderRecord) (g : Nat) (cur : LeaderRecord)
    (h : Lookup cache g = some cur) :
    ∃ r, Lookup (Update cache c).2 g = some r ∧ cur.epoch ≤ r.epoch ∧ (r = cur ∨ r = c) := by
  cases hb : (Update cache c).1 with
  | false => rw [Update_not_applied cache c hb]; exact ⟨cur, h, le_refl _, Or.inl rfl⟩
  | true =>
    rw [Update_applied cache c hb]
    by_cases hg : g = c.groupId
    · subst hg
      rcases (Update_applied_iff cache c).1 hb with hn | ⟨cur1, h1, h2⟩
      · rw [h] at hn; cases hn
      · rw [h] at h1; cases h1
        exact ⟨c, by simp [Lookup], h2, Or.inr rfl⟩
    · exact ⟨cur, by simpa [Lookup, hg] using h, le_refl _, Or.inl rfl⟩

theorem UpdateAll_cons (cache : Cache) (c : LeaderRecord) (cs : List LeaderRecord) :
    UpdateAll cache (c :: cs) = UpdateAll (Update cache c).2 cs := rfl

theorem UpdateAll_epoch_le (cands : List LeaderRecord) : ∀ (cache : Cache) (g : Nat)
    (cur : LeaderRecord), Lookup cache g = some cur →
    ∃ r, Lookup (UpdateAll cache cands) g = some r ∧ cur.epoch ≤ r.epoch ∧
      (r = cur ∨ r ∈ cands) := by
  induction cands with
  | nil => intro cache g cur h; exact ⟨cur, h, le_refl _, Or.inl rfl⟩
  | cons c cs ih =>
    intro cache g cur h
    obtain ⟨r1, hr1, hle1, hor1⟩ := Update_epoch_le cache c g cur h
    obtain ⟨r, hr, hle, hor⟩ := ih (Update cache c).2 g r1 hr1
    refine ⟨r, by rw [UpdateAll_cons]; exact hr, le_trans hle1 hle, ?_⟩
    rcases hor with rfl | hmem
    · rcases hor1 with rfl | rfl
      · exact Or.inl rfl
      · exact Or.inr (List.mem_cons_self _ _)
    · exact Or.inr (List.mem_cons_of_mem _ hmem)

/-- After updates that all concern group `g`, the cached epoch bounds every candidate's. -/
theorem UpdateAll_epoch_ge (cands : List LeaderRecord) : ∀ (cache : Cache) (g : Nat)
    (cur : LeaderRecord), Lookup cache g = some cur → (∀ c ∈ cands, c.groupId = g) →
    ∀ r, Lookup (UpdateAll cache cands) g = some r → ∀ c ∈ cands, c.epoch ≤ r.epoch := by
  induction cands with
  | nil => intro _ _ _ _ _ _ _ c hc; cases hc
  | cons c cs ih =>
    intro cache g cur h hg r hr c' hc'
    rw [UpdateAll_cons] at hr
    obtain ⟨r1, hr1, hle1, _⟩ := Update_epoch_le cache c g cur h
    rcases List.mem_cons.1 hc' with rfl | hmem
    · -- the head candidate: after its own Update the cached epoch is at least its epoch
      have hc1 : c'.epoch ≤ r1.epoch := by
        cases hb : (Update cache c').1 with
        | true =>
          rw [Update_applied cache c' hb] at hr1
          have : g = c'.groupId := (hg c' (List.mem_cons_self _ _)).symm
          simp [Lookup, this] at hr1
          rw [hr1]
        | false =>
          have hnot : ¬ ((Update cache c').1 = true) := by simp [hb]
          rw [Update_applied_iff] at hnot
          push_neg at hnot
          have hgc : c'.groupId = g := hg c' (List.mem_cons_self _ _)
          rw [Update_not_applied cache c' hb] at hr1
          have hr1c : r1 = cur := by rw [h] at hr1; exact (Option.some.inj hr1).symm
          have := hnot.2 cur (by rw [hgc]; exact h)
          rw [hr1c]; omega
      obtain ⟨r2, hr2, hle2, _⟩ := UpdateAll_epoch_le cs (Update cache c').2 g r1 hr1
      rw [hr2] at hr; cases hr
      exact le_trans hc1 hle2
    · exact ih (Update cache c).2 g r1 hr1 (fun x hx => hg x (List.mem_cons_of_mem _ hx)) r hr c' hmem

/-- Claim C4. Epoch monotonicity of the Leader Locator Cache. `Update(candidate)` reports
that it applied exactly when the candidate's group has no entry or
`candidate.epoch >= current.epoch`; when it applied, the entry of that group is the
candidate and no other group changed; when it did not, the cache is unchanged. Hence, after
any non-empty sequence of `Update` calls for one group that started from a Miss, `Lookup`
returns one of the candidates, and its epoch is the maximum of all their epochs; and over
any sequence of `Update` calls the epoch cached for a group never decreases. -/
theorem LeaderLocatorCache_epoch_monotone :
    (∀ (cache : Cache) (candidate : LeaderRecord),
      ((Update cache candidate).1 = true ↔
        (Lookup cache candidate.groupId = none ∨
          ∃ current, Lookup cache candidate.groupId = some current ∧
            candidate.epoch ≥ current.epoch)) ∧
      ((Update cache candidate).1 = true →
        Lookup (Update cache candidate).2 candidate.groupId = some candidate ∧
        ∀ g, g ≠ candidate.groupId → Lookup (Update cache candidate).2 g = Lookup cache g) ∧
      ((Update cache candidate).1 = false → (Update cache candidate).2 = cache)) ∧
    (∀ (cache : Cache) (g : Nat) (candidates : List LeaderRecord),
      Lookup cache g = none → candidates ≠ [] → (∀ c ∈ candidates, c.groupId = g) →
      ∃ r, Lookup (UpdateAll cache candidates) g = some r ∧ r ∈ candidates ∧
        ∀ c ∈ candidates, c.epoch ≤ r.epoch) ∧
    (∀ (cache : Cache) (g : Nat) (current : LeaderRecord) (candidates : List LeaderRecord),
      Lookup cache g = some current →
      ∃ r, Lookup (UpdateAll cache candidates) g = some r ∧ current.epoch ≤ r.epoch) := by
  refine ⟨fun cache c => ⟨Update_applied_iff cache c, ?_, Update_not_applied cache c⟩, ?_, ?_⟩
  · intro h
    rw [Update_applied cache c h]
    exact ⟨by simp [Lookup], fun g hg => by simp [Lookup, hg]⟩
  · intro cache g cands hmiss hne hg
    cases cands with
    | nil => exact absurd rfl hne
    | cons c cs =>
      have hgc : c.groupId = g := hg c (List.mem_cons_self _ _)
      have happ : (Update cache c).1 = true :=
        (Update_applied_iff cache c).2 (Or.inl (by rw [hgc]; exact hmiss))
      have hl : Lookup (Update cache c).2 g = some c := by
        rw [Update_applied cache c happ]; simp [Lookup, hgc]
      obtain ⟨r, hr, hle, hor⟩ := UpdateAll_epoch_le cs (Update cache c).2 g c hl
      refine ⟨r, by rw [UpdateAll_cons]; exact hr, ?_, ?_⟩
      · rcases hor with rfl | hmem
        · exact List.mem_cons_self _ _
        · exact List.mem_cons_of_mem _ hmem
      · intro c' hc'
        rcases List.mem_cons.1 hc' with rfl | hmem
        · exact hle
        · exact UpdateAll_epoch_ge cs (Update cache c).2 g c hl
            (fun x hx => hg x (List.mem_cons_of_mem _ hx)) r hr c' hmem
  · intro cache g cur cands h
    obtain ⟨r, hr, hle, _⟩ := UpdateAll_epoch_le cands cache g cur h
    exact ⟨r, hr, hle⟩

/-- Four updates of group 7 with epochs 3, 5, 4, 5: the stale one is refused, the last
candidate of the highest epoch is the one cached. -/
theorem UpdateAll_on_samples :
    Lookup (UpdateAll Cache.empty
        [⟨7, 1, "a", 3⟩, ⟨7, 2, "b", 5⟩, ⟨7, 3, "c", 4⟩, ⟨7, 4, "d", 5⟩]) 7 =
      some ⟨7, 4, "d", 5⟩ ∧
    (Update (UpdateAll Cache.empty [⟨7, 1, "a", 3⟩, ⟨7, 2, "b", 5⟩]) ⟨7, 3, "c", 4⟩).1 = false := by
  decide

end LeaderLocator

/-! ## The integration test -/

namespace UnstableCSTest

/-! ### The measuring loops -/

/-- Claim C7, on the code. The loop after the hang pushes every reading with `i >= 5`: the
readings of seconds 5, 6, 7, 8, 9 and 10. That is six readings, not the five of the
comment `// 记录后5s的iops值` ("record the iops of the last 5 s") next to the test. -/
theorem HangOneZone_afterRecords_holds_six (iops : Nat → Nat) :
    afterRecords iops = [iops 5, iops 6, iops 7, iops 8, iops 9, iops 10] ∧
    (afterRecords iops).length = 6 ∧ (afterRecords iops).length ≠ 5 := by
  have h : afterRecords iops = [iops 5, iops 6, iops 7, iops 8, iops 9, iops 10] := rfl
  rw [h]; simp

/-- The thirty readings before the hang are those of seconds 31 to 60. -/
theorem beforeRecords_eq (iops : Nat → Nat) :
    beforeRecords iops = (List.range' 31 30).map iops := by
  simp [beforeRecords, List.range']

theorem beforeRecords_length (iops : Nat → Nat) : (beforeRecords iops).length = 30 := by
  simp [beforeRecords_eq]

/-- While the running sum stays below `2^31` the `int` accumulator holds the true sum. -/
theorem accumulate_eq_sum (xs : List Nat) : ∀ init : Int, 0 ≤ init → init + xs.sum < 2 ^ 31 →
    accumulate xs init = init + xs.sum := by
  induction xs with
  | nil => intro init _ _; simp [accumulate]
  | cons x xs ih =>
    intro init h0 hlt
    simp only [List.sum_cons, Nat.cast_add] at hlt
    have hstep : toInt32 ((toUInt64 init + x) % 2 ^ 64) = init + x := by
      unfold toInt32 toUInt64
      have : (init % 2 ^ 64).toNat = init.toNat := by
        congr 1; exact Int.emod_eq_of_lt h0 (by omega)
      rw [this]
      have hx : (0:Int) ≤ (xs.sum : Int) := by positivity
      split <;> omega
    have := ih (init + x) (by omega) (by omega)
    simp only [accumulate, List.foldl_cons, List.sum_cons, Nat.cast_add] at this ⊢
    rw [hstep, this]; ring

/-- For readings whose sum is below `2^31` the computed average is the integer mean. -/
theorem avgIOps_eq_integerMean (records : List Nat) (hne : records ≠ [])
    (hsum : records.sum < 2 ^ 31) : avgIOps records = some (integerMean records) := by
  have hlen : records.length ≠ 0 := by simpa using hne
  have h1 : ((records.sum : Nat) : Int) < 2 ^ 31 := by exact_mod_cast hsum
  have hacc := accumulate_eq_sum records 0 (le_refl _) (by omega)
  have h2 : toUInt64 (accumulate records 0) = records.sum := by
    rw [hacc, zero_add]
    unfold toUInt64
    rw [Int.emod_eq_of_lt (by omega) (by omega)]
    exact Int.toNat_natCast _
  simp only [avgIOps, hlen, if_false, integerMean, h2]

/-- Claim C8, on the code. Both record lists are non-empty (30 and 6 readings), so the
divisor is never zero; but the sum is accumulated in an `int` (the initial value is the
`int` literal `0`), so for readings whose sum reaches `2^31` the average is not the integer
mean: thirty readings of 100000000 average to 614891469080486144, and six readings of
400000000 to 3074457345302430720. -/
theorem HangOneZone_average_wraps_in_int :
    (∀ iops : Nat → Nat, (beforeRecords iops).length = 30 ∧ (afterRecords iops).length = 6) ∧
    beforeAvgIOps (fun _ => 100000000) = some 614891469080486144 ∧
    integerMean (beforeRecords fun _ => 100000000) = 100000000 ∧
    afterAvgIOps (fun _ => 400000000) = some 3074457345302430720 ∧
    integerMean (afterRecords fun _ => 400000000) = 400000000 := by
  refine ⟨fun iops => ⟨beforeRecords_length iops, rfl⟩, ?_, ?_, ?_, ?_⟩
  · simp [beforeAvgIOps, beforeRecords_eq, avgIOps, accumulate, List.range', toInt32, toUInt64]
  · simp [beforeRecords_eq, integerMean, List.range']
  · simp [afterAvgIOps, afterRecords, avgIOps, accumulate, List.range', toInt32, toUInt64]
  · simp [afterRecords, integerMean, List.range']

/-- At realistic rates the computed averages are the integer means: 30 readings of 1200
and 6 readings of 800. -/
theorem HangOneZone_average_on_samples :
    beforeAvgIOps (fun _ => 1200) = some 1200 ∧ afterAvgIOps (fun _ => 800) = some 800 := by
  constructor
  · simp [beforeAvgIOps, beforeRecords_eq, avgIOps, accumulate, List.range', toInt32, toUInt64]
  · simp [afterAvgIOps, afterRecords, avgIOps, accumulate, List.range', toInt32, toUInt64]

/-! ### Random offsets and lengths -/

theorem tmod_32_bounds (r : Int) (h : 0 ≤ r) : r.tmod 32 = r % 32 ∧ 0 ≤ r % 32 ∧ r % 32 < 32 := by
  refine ⟨?_, by omega, by omega⟩
  rw [Int.tmod_eq_emod h (by decide)]

theorem RandomWriteOffset_eq (r : Int) (h : 0 ≤ r) :
    RandomWriteOffset r = some (r % 32 * 16777216) := by
  obtain ⟨h1, h2, h3⟩ := tmod_32_bounds r h
  unfold RandomWriteOffset mulInt INT_MIN INT_MAX
  rw [h1, if_pos (by constructor <;> omega)]
  norm_num

theorem RandomWriteLength_eq (r : Int) (h : 0 ≤ r) :
    RandomWriteLength r = some (r % 32 * 4096).toNat := by
  obtain ⟨h1, h2, h3⟩ := tmod_32_bounds r h
  unfold RandomWriteLength mulInt INT_MIN INT_MAX toUInt64
  rw [h1, if_pos (by constructor <;> omega)]
  simp only [Option.map_some']
  rw [Int.emod_eq_of_lt (by omega) (by omega)]

/-- Claim C9. For all values `r1`, `r2 >= 0` that `rand()` returns in one turn of
`AioWriteFunc`: the offset is `(r1 mod 32) * 16 MiB`, computed without leaving the range of
`int`, a multiple of 16 MiB in `[0, 31 * 16 MiB]`; the length is `(r2 mod 32) * 4096`, a
multiple of 4096 in `[0, 126976]` (0 for `r2 = 0`); so the length is at most
`sizeof(buffer) = 4194304`, and `[offset, offset + length)` lies inside one 16 MiB-aligned
region `[k * 16 MiB, (k + 1) * 16 MiB)` with `k < 32`, below 512 MiB. -/
theorem AioWriteFunc_within_buffer_and_region (r1 r2 : Int) (h1 : 0 ≤ r1) (h2 : 0 ≤ r2) :
    ∃ offset length,
      RandomWriteOffset r1 = some offset ∧ offset = r1 % 32 * (16 * 1024 * 1024) ∧
      (16 * 1024 * 1024 : Int) ∣ offset ∧ 0 ≤ offset ∧ offset ≤ 31 * (16 * 1024 * 1024) ∧
      RandomWriteLength r2 = some length ∧ (length : Int) = r2 % 32 * 4096 ∧
      4096 ∣ length ∧ length ≤ 126976 ∧
      RandomWriteLength 0 = some 0 ∧
      AioWriteFunc r1 r2 = some { offset := offset, length := length } ∧
      sizeofBuffer = 4194304 ∧ length ≤ sizeofBuffer ∧
      ∃ k : Int, 0 ≤ k ∧ k < 32 ∧ k * (16 * 1024 * 1024) ≤ offset ∧
        offset + length ≤ (k + 1) * (16 * 1024 * 1024) ∧
        (k + 1) * (16 * 1024 * 1024) ≤ 512 * 1024 * 1024 := by
  obtain ⟨_, a2, a3⟩ := tmod_32_bounds r1 h1
  obtain ⟨_, b2, b3⟩ := tmod_32_bounds r2 h2
  have hlen : ((r2 % 32 * 4096).toNat : Int) = r2 % 32 * 4096 := Int.toNat_of_nonneg (by omega)
  refine ⟨r1 % 32 * 16777216, (r2 % 32 * 4096).toNat, RandomWriteOffset_eq r1 h1, by norm_num,
    ⟨r1 % 32, by ring⟩, by omega, by omega, RandomWriteLength_eq r2 h2, hlen, ?_, by omega,
    by decide, ?_, by decide, ?_, r1 % 32, a2, a3, by omega, by omega, by omega⟩
  · refine ⟨(r2 % 32).toNat, ?_⟩
    omega
  · simp [AioWriteFunc, RandomWriteOffset_eq r1 h1, RandomWriteLength_eq r2 h2]
  · unfold sizeofBuffer; omega

theorem AioWriteFunc_within_buffer_and_region_witness :
    ∃ offset length,
      RandomWriteOffset 1804289383 = some offset ∧ offset = 1804289383 % 32 * (16 * 1024 * 1024) ∧
      (16 * 1024 * 1024 : Int) ∣ offset ∧ 0 ≤ offset ∧ offset ≤ 31 * (16 * 1024 * 1024) ∧
      RandomWriteLength 846930886 = some length ∧ (length : Int) = 846930886 % 32 * 4096 ∧
      4096 ∣ length ∧ length ≤ 126976 ∧
      RandomWriteLength 0 = some 0 ∧
      AioWriteFunc 1804289383 846930886 = some { offset := offset, length := length } ∧
      sizeofBuffer = 4194304 ∧ length ≤ sizeofBuffer ∧
      ∃ k : Int, 0 ≤ k ∧ k < 32 ∧ k * (16 * 1024 * 1024) ≤ offset ∧
        offset + length ≤ (k + 1) * (16 * 1024 * 1024) ∧
        (k + 1) * (16 * 1024 * 1024) ≤ 512 * 1024 * 1024 :=
  AioWriteFunc_within_buffer_and_region 1804289383 846930886 (by decide) (by decide)

/-! ### The configuration of a chunkserver -/

theorem digitChar_ne_percent : ∀ m, m < 10 → Nat.digitChar m ≠ '%' := by decide

theorem toDigitsCore_no_percent (fuel : Nat) : ∀ (n : Nat) (ds : List Char),
    (∀ c ∈ ds, c ≠ '%') → ∀ c ∈ Nat.toDigitsCore 10 fuel n ds, c ≠ '%' := by
  induction fuel with
  | zero => intro n ds h; simpa [Nat.toDigitsCore] using h
  | succ fuel ih =>
    intro n ds h
    have hd : ∀ c ∈ Nat.digitChar (n % 10) :: ds, c ≠ '%' := by
      intro c hc
      rcases List.mem_cons.1 hc with rfl | hc
      · exact digitChar_ne_percent _ (Nat.mod_lt _ (by decide))
      · exact h c hc
    unfold Nat.toDigitsCore
    by_cases h0 : n / 10 = 0
    · simpa [h0] using hd
    · simp only [h0, if_false]
      exact ih _ _ hd

theorem formatInt_no_percent (n : Int) : ∀ c ∈ formatInt n, c ≠ '%' := by
  have h : ∀ m : Nat, ∀ c ∈ Nat.toDigits 10 m, c ≠ '%' := fun m =>
    toDigitsCore_no_percent _ _ _ (by intro c hc; cases hc)
  unfold formatInt
  split
  · intro c hc
    rcases List.mem_cons.1 hc with rfl | hc
    · decide
    · exact h _ c hc
  · exact h _

theorem formatInt_eq_decimalPort (n : Int) : formatInt n = decimalPort n := by
  unfold formatInt decimalPort
  cases n with
  | ofNat m =>
    have : ¬ (Int.ofNat m < 0) := by simp
    rw [if_neg this]
    rfl
  | negSucc m =>
    have : Int.negSucc m < 0 := Int.negSucc_lt_zero m
    rw [if_pos this]
    rfl

theorem hasPlaceholder_of_no_percent (l : List Char) (h : ∀ c ∈ l, c ≠ '%') :
    hasPlaceholder l = false := by
  induction l with
  | nil => rfl
  | cons c rest ih =>
    have hc : c ≠ '%' := h c (List.mem_cons_self _ _)
    have hr := ih (fun x hx => h x (List.mem_cons_of_mem _ hx))
    unfold hasPlaceholder
    split
    · rfl
    · rename_i heq; simp at heq; exact absurd heq.1 hc
    · rename_i heq; simp at heq; rw [← heq.2]; exact hr

theorem replacePlaceholder_no_percent (d : List Char) (hd : ∀ c ∈ d, c ≠ '%') :
    ∀ fmt : List Char, fmt.count '%' = 1 → hasPlaceholder fmt = true →
      ∀ c ∈ replacePlaceholder d fmt, c ≠ '%' := by
  intro fmt
  induction fmt with
  | nil => intro h; simp at h
  | cons x rest ih =>
    intro hcount hhas
    by_cases hx : x = '%'
    · subst hx
      have hrest : rest.count '%' = 0 := by simpa using hcount
      have hnone : ∀ c ∈ rest, c ≠ '%' := by
        intro c hc hcp
        subst hcp
        exact absurd hrest (by
          have := List.count_pos_iff.2 hc
          omega)
      cases rest with
      | nil => simp [hasPlaceholder] at hhas
      | cons y rest2 =>
        by_cases hy : y = 'd'
        · subst hy
          intro c hc
          simp only [replacePlaceholder, List.mem_append] at hc
          rcases hc with hc | hc
          · exact hd c hc
          · exact hnone c (List.mem_cons_of_mem _ hc)
        · have : hasPlaceholder ('%' :: y :: rest2) = hasPlaceholder (y :: rest2) := by
            rw [hasPlaceholder]
            intro r _ hr; simp at hr; exact hy hr.1
          rw [this, hasPlaceholder_of_no_percent _ hnone] at hhas
          cases hhas
    · have hcount2 : rest.count '%' = 1 := by
        rw [List.count_cons_of_ne (Ne.symm hx)] at hcount; exact hcount
      have hhas2 : hasPlaceholder rest = true := by
        rw [hasPlaceholder] at hhas
        · exact hhas
        · intro r hr; exact absurd hr hx
      have hrep : replacePlaceholder d (x :: rest) = x :: replacePlaceholder d rest := by
        rw [replacePlaceholder]
        intro r hr; exact absurd hr hx
      rw [hrep]
      intro c hc
      rcases List.mem_cons.1 hc with rfl | hc
      · exact hx
      · exact ih hcount2 hhas2 c hc

theorem formattedIndices_lt : ∀ i ∈ formattedIndices, i < 16 := by decide

theorem template_formatted_entries : ∀ i ∈ formattedIndices,
    ∃ fmt, chunkserverConfTemplate[i]? = some fmt ∧ fmt.count '%' = 1 ∧
      hasPlaceholder fmt = true := by
  decide

theorem vformat_template (port : Int) (i : Nat) (hi : i ∈ formattedIndices) :
    ∃ fmt, chunkserverConfTemplate[i]? = some fmt ∧
      vformat fmt [port] = some (replacePlaceholder (formatInt port) fmt) := by
  simp only [formattedIndices, List.mem_cons, List.mem_singleton, List.not_mem_nil,
    or_false] at hi
  rcases hi with rfl | rfl | rfl | rfl | rfl | rfl | rfl | rfl | rfl | rfl | rfl | rfl <;>
    exact ⟨_, rfl, rfl⟩

theorem assignFormatted_eq (N : Nat) (port : Int) (hfit : fitsNameMaxSize N port = true)
    (i : Nat) (hi : i ∈ formattedIndices) (conf : List (List Char)) (hlen : conf.length = 16) :
    assignFormatted N port conf i =
      some (conf.set i (replacePlaceholder (formatInt port) (chunkserverConfTemplate.getD i []))) := by
  obtain ⟨fmt, hfmt, hv⟩ := vformat_template port i hi
  have hlt : (replacePlaceholder (formatInt port) fmt).length < N := by
    unfold fitsNameMaxSize at hfit
    rw [List.all_eq_true] at hfit
    have := hfit i hi
    simpa only [hfmt, hv, decide_eq_true_eq] using this
  have hget : chunkserverConfTemplate.getD i [] = fmt := by
    rw [List.getD_eq_getElem?_getD, hfmt]; rfl
  have hN : N ≠ 0 := by omega
  have hsn : formatter N fmt port = some (replacePlaceholder (formatInt port) fmt) := by
    unfold formatter snprintf
    rw [if_neg hN, hv]
    simp only [Option.map_some', Option.some.injEq]
    exact List.take_of_length_le (by omega)
  have hil : i < conf.length := by rw [hlen]; exact formattedIndices_lt i hi
  unfold assignFormatted
  simp only [hfmt, hsn, hil, if_true, hget]

theorem foldlM_assignFormatted (N : Nat) (port : Int) (hfit : fitsNameMaxSize N port = true)
    (idxs : List Nat) : (∀ i ∈ idxs, i ∈ formattedIndices) → ∀ conf : List (List Char),
    conf.length = 16 →
    idxs.foldlM (assignFormatted N port) conf =
      some (idxs.foldl (fun c i => c.set i
        (replacePlaceholder (formatInt port) (chunkserverConfTemplate.getD i []))) conf) := by
  induction idxs with
  | nil => intro _ conf _; rfl
  | cons i idxs ih =>
    intro hmem conf hlen
    rw [List.foldlM_cons, assignFormatted_eq N port hfit i (hmem i (List.mem_cons_self _ _)) conf hlen]
    simp only [Option.some_bind, List.foldl_cons, Option.bind_eq_bind]
    exact ih (fun j hj => hmem j (List.mem_cons_of_mem _ hj)) _ (by simp [hlen])

theorem GenChunkserverConf_eq (N : Nat) (port : Int) (hfit : fitsNameMaxSize N port = true) :
    GenChunkserverConf N port =
      some (formattedIndices.foldl (fun c i => c.set i
        (replacePlaceholder (decimalPort port) (chunkserverConfTemplate.getD i [])))
        chunkserverConfTemplate) := by
  unfold GenChunkserverConf
  rw [foldlM_assignFormatted N port hfit formattedIndices (fun _ h => h) chunkserverConfTemplate rfl,
    formatInt_eq_decimalPort]

theorem template_plain_entries :
    ∀ i ∈ [0, 1, 13, 15], chunkserverConfTemplate[i]?.map hasPlaceholder = some false := by
  decide

theorem template_placeholder_indices : ∀ i, i < 16 →
    (chunkserverConfTemplate[i]?.map hasPlaceholder = some true ↔
      i ∈ [2, 3, 4, 5, 6, 7, 8, 9, 10, 11, 12, 14]) := by
  decide

theorem index_split : ∀ i, i < 16 →
    i ∈ [0, 1, 13, 15] ∨ i ∈ [2, 3, 4, 5, 6, 7, 8, 9, 10, 11, 12, 14] := by
  decide

/-- Claim C10. For every port whose formatted entries fit in `NAME_MAX_SIZE`,
`GenChunkserverConf(port)` returns a vector of the length of the template, 16; its entries
0, 1, 13 and 15 are those of the template; each entry 2..12 and 14 is the template entry
with its `%d` placeholder replaced by the decimal port; these twelve indices are exactly
those whose template entry contains `%d`; and no entry of the result contains `%d`. -/
theorem GenChunkserverConf_substitutes_port (NAME_MAX_SIZE : Nat) (port : Int)
    (hfit : fitsNameMaxSize NAME_MAX_SIZE port = true) :
    ∃ conf, GenChunkserverConf NAME_MAX_SIZE port = some conf ∧
      conf.length = 16 ∧ chunkserverConfTemplate.length = 16 ∧
      (∀ i ∈ [0, 1, 13, 15], conf[i]? = chunkserverConfTemplate[i]?) ∧
      (∀ i ∈ [2, 3, 4, 5, 6, 7, 8, 9, 10, 11, 12, 14],
        conf[i]? = chunkserverConfTemplate[i]?.map (replacePlaceholder (decimalPort port))) ∧
      (∀ i, i < 16 → (chunkserverConfTemplate[i]?.map hasPlaceholder = some true ↔
        i ∈ [2, 3, 4, 5, 6, 7, 8, 9, 10, 11, 12, 14])) ∧
      (∀ e ∈ conf, hasPlaceholder e = false) := by
  have hplain : ∀ i ∈ [0, 1, 13, 15],
      (formattedIndices.foldl (fun c i => c.set i
        (replacePlaceholder (decimalPort port) (chunkserverConfTemplate.getD i [])))
        chunkserverConfTemplate)[i]? = chunkserverConfTemplate[i]? := by
    intro i hi
    generalize replacePlaceholder (decimalPort port) = f
    simp only [List.mem_cons, List.mem_singleton, List.not_mem_nil, or_false] at hi
    rcases hi with rfl | rfl | rfl | rfl <;>
      simp [formattedIndices, chunkserverConfTemplate]
  have hfmt : ∀ i ∈ [2, 3, 4, 5, 6, 7, 8, 9, 10, 11, 12, 14],
      (formattedIndices.foldl (fun c i => c.set i
        (replacePlaceholder (decimalPort port) (chunkserverConfTemplate.getD i [])))
        chunkserverConfTemplate)[i]? =
      chunkserverConfTemplate[i]?.map (replacePlaceholder (decimalPort port)) := by
    intro i hi
    generalize replacePlaceholder (decimalPort port) = f
    simp only [List.mem_cons, List.mem_singleton, List.not_mem_nil, or_false] at hi
    rcases hi with rfl | rfl | rfl | rfl | rfl | rfl | rfl | rfl | rfl | rfl | rfl | rfl <;>
      simp [formattedIndices, chunkserverConfTemplate]
  have hlen : (formattedIndices.foldl (fun c i => c.set i
        (replacePlaceholder (decimalPort port) (chunkserverConfTemplate.getD i [])))
        chunkserverConfTemplate).length = 16 := rfl
  refine ⟨_, GenChunkserverConf_eq NAME_MAX_SIZE port hfit, hlen, rfl, hplain, hfmt,
    template_placeholder_indices, ?_⟩
  intro e he
  obtain ⟨i, hi, hie⟩ := List.mem_iff_getElem.1 he
  rw [hlen] at hi
  have hie2 := List.getElem?_eq_getElem (hlen ▸ hi : i < _)
  rw [hie] at hie2
  rcases index_split i hi with hp | hf
  · have h1 := template_plain_entries i hp
    rw [hplain i hp] at hie2
    rw [hie2] at h1
    simpa using h1
  · rw [hfmt i hf] at hie2
    obtain ⟨fmt, hfmt1, hcount, hhas⟩ := template_formatted_entries i hf
    rw [hfmt1] at hie2
    simp only [Option.map_some', Option.some.injEq] at hie2
    rw [← hie2]
    apply hasPlaceholder_of_no_percent
    apply replacePlaceholder_no_percent _ _ fmt hcount hhas
    rw [← formatInt_eq_decimalPort]
    exact formatInt_no_percent port

theorem GenChunkserverConf_substitutes_port_witness :
    ∃ conf, GenChunkserverConf 256 31000 = some conf ∧
      conf.length = 16 ∧ chunkserverConfTemplate.length = 16 ∧
      (∀ i ∈ [0, 1, 13, 15], conf[i]? = chunkserverConfTemplate[i]?) ∧
      (∀ i ∈ [2, 3, 4, 5, 6, 7, 8, 9, 10, 11, 12, 14],
        conf[i]? = chunkserverConfTemplate[i]?.map (replacePlaceholder (decimalPort 31000))) ∧
      (∀ i, i < 16 → (chunkserverConfTemplate[i]?.map hasPlaceholder = some true ↔
        i ∈ [2, 3, 4, 5, 6, 7, 8, 9, 10, 11, 12, 14])) ∧
      (∀ e ∈ conf, hasPlaceholder e = false) :=
  GenChunkserverConf_substitutes_port 256 31000 (by decide)

/-- The configuration generated for port 31000 with a 256-byte buffer. -/
theorem GenChunkserverConf_on_sample :
    GenChunkserverConf 256 31000 = some
      [ "-raft_sync_segments=true".toList,
        "-conf=./test/integration/unstable_test_cs.conf".toList,
        "-chunkServerPort=31000".toList,
        "-chunkServerStoreUri=local://./ttt/31000/".toList,
        "-chunkServerMetaUri=local://./ttt/31000/chunkserver.dat".toList,
        "-copySetUri=local://./ttt/31000/copysets".toList,
        "-raftSnapshotUri=curve://./ttt/31000/copysets".toList,
        "-raftLogUri=curve://./ttt/31000/copysets".toList,
        "-recycleUri=local://./ttt/31000/recycler".toList,
        "-chunkFilePoolDir=./ttt/31000/chunkfilepool/".toList,
        "-chunkFilePoolMetaPath=./ttt/31000/chunkfilepool.meta".toList,
        "-walFilePoolDir=./ttt/31000/walfilepool/".toList,
        "-walFilePoolMetaPath=./ttt/31000/walfilepool.meta".toList,
        "-mdsListenAddr=127.0.0.1:30010,127.0.0.1:30011,127.0.0.1:30012".toList,
        "-log_dir=./runlog/cs_31000".toList,
        "--stderrthreshold=3".toList ] := by
  decide

end UnstableCSTest
